import Mathlib

/-!
Verification of the core of `cargo-mutants` against its specification.

The definitions below are a shallow embedding of the Rust sources:
  * `src/visit.rs`   — AST visitor, tree walker, mutation-op catalogue,
                        `remove_excess_spaces` name normalisation;
  * `src/cargo.rs`   — `cargo_argv`, `cargo_bin`, `CargoSourceTree::rustflags`;
  * `src/console.rs` — `style_outcome`.
Types that live in repository files outside the packaged sources
(`outcome.rs`, `mutate.rs`, `source.rs`, `options.rs`) are modelled from the
specification and marked as such in their doc comments.
-/

namespace CargoMutants

/-! ## `remove_excess_spaces` (src/visit.rs lines 343-373)

The Rust function walks the characters of `s`, appending to a result string
`r`; some spaces are dropped and a space already in `r` can be popped before
appending `:`, `,`, `<` or `>`.  The first match arm — a space when `r` ends
with `"->"` — has an empty body and no `continue`, so control falls through
to the push: that space is KEPT, shielded from the second arm which would
otherwise drop a space after `>`.  We keep the accumulator reversed (push =
`cons`, pop = `tail`, last char = `head`) so that the suffix tests of the
source become head-pattern tests. -/

/-- Characters that make a following space droppable (`':' | '&' | '<' | '>'`
in the source's second match arm). -/
def drops_space_after (a : Char) : Bool :=
  a == ':' || a == '&' || a == '<' || a == '>'

/-- Characters that pop a directly preceding space (`':' | ',' | '<' | '>'`
in the source's third match arm). -/
def drops_space_before (c : Char) : Bool :=
  c == ':' || c == ',' || c == '<' || c == '>'

/-- The arrow suffix test of the source, on the reversed accumulator. -/
def ends_with_arrow (r : List Char) : Bool :=
  match r with
  | b :: a :: _ => b == '>' && a == '-'
  | _ => false

/-- The last pushed character is one of the `drops_space_after` characters. -/
def head_drops_after (r : List Char) : Bool :=
  match r with
  | a :: _ => drops_space_after a
  | [] => false

/-- The trailing-space test of the source, on the reversed accumulator. -/
def head_is_space (r : List Char) : Bool :=
  match r with
  | a :: _ => a == ' '
  | [] => false

/-- The character loop of `remove_excess_spaces`, with the result string
kept reversed.  The four branches are the source's match arms in order: a
space after `"->"` falls through to the push (the arm body is empty, there
is no `continue`); a space after `: & < >` is dropped (`continue`); one of
`: , < >` pops a directly preceding space and is pushed; everything else is
pushed. -/
def remove_excess_spaces_aux (r : List Char) : List Char → List Char
  | [] => r
  | c :: cs =>
    if c == ' ' && ends_with_arrow r then
      remove_excess_spaces_aux (c :: r) cs
    else if c == ' ' && head_drops_after r then
      remove_excess_spaces_aux r cs
    else if drops_space_before c && head_is_space r then
      remove_excess_spaces_aux (c :: r.tail) cs
    else
      remove_excess_spaces_aux (c :: r) cs

/-- The `remove_excess_spaces` of src/visit.rs. -/
def remove_excess_spaces (s : String) : String :=
  ⟨(remove_excess_spaces_aux [] s.data).reverse⟩

/-- Scan a list for an adjacent pair satisfying `p`. -/
def pair_scan (p : Char → Char → Bool) : List Char → Bool
  | a :: b :: rest => p a b || pair_scan p (b :: rest)
  | _ => false

/-- Two adjacent spaces. -/
def adj_spaces (a b : Char) : Bool := a == ' ' && b == ' '

/-- A space directly following an occurrence of `"->"`. -/
def has_space_after_arrow : List Char → Bool
  | a :: b :: c :: rest => (a == '-' && b == '>' && c == ' ') ||
      has_space_after_arrow (b :: c :: rest)
  | _ => false

theorem pair_scan_cons_false {p : Char → Char → Bool} {c : Char} {r : List Char}
    (h : pair_scan p (c :: r) = false) : pair_scan p r = false := by
  cases r with
  | nil => rfl
  | cons b rest =>
    simp only [pair_scan, Bool.or_eq_false_iff] at h
    exact h.2

theorem pair_scan_cons_head {p : Char → Char → Bool} {c b : Char} {rest : List Char}
    (h : pair_scan p (c :: b :: rest) = false) : p c b = false := by
  simp only [pair_scan, Bool.or_eq_false_iff] at h
  exact h.1

/-- A position the loop would still rewrite, scanning the reversed
accumulator: a space directly before one of `: , < >`, or a space directly
after one of `: & < >` that is not shielded by a preceding `"->"`. -/
def bad_rev_scan : List Char → Bool
  | x :: y :: rest =>
    ((y == ' ' && drops_space_before x)
      || (drops_space_after y && x == ' ' && !ends_with_arrow (y :: rest)))
    || bad_rev_scan (y :: rest)
  | _ => false

theorem bad_rev_scan_cons_false {c : Char} {r : List Char}
    (h : bad_rev_scan (c :: r) = false) : bad_rev_scan r = false := by
  cases r with
  | nil => rfl
  | cons y rest =>
    simp only [bad_rev_scan, Bool.or_eq_false_iff] at h
    exact h.2

theorem bad_rev_scan_cons_head {x y : Char} {rest : List Char}
    (h : bad_rev_scan (x :: y :: rest) = false) :
    ((y == ' ' && drops_space_before x)
      || (drops_space_after y && x == ' ' && !ends_with_arrow (y :: rest)))
      = false := by
  have h' : (((y == ' ' && drops_space_before x)
      || (drops_space_after y && x == ' ' && !ends_with_arrow (y :: rest)))
      || bad_rev_scan (y :: rest)) = false := h
  exact (Bool.or_eq_false_iff.mp h').1

theorem bad_rev_scan_append_right :
    ∀ (l t : List Char), bad_rev_scan (l ++ t) = false →
      bad_rev_scan t = false := by
  intro l
  induction l with
  | nil => intro t h; exact h
  | cons a l ih =>
    intro t h
    exact ih t (bad_rev_scan_cons_false h)

theorem head_is_space_cons (c : Char) (l : List Char) :
    head_is_space (c :: l) = (c == ' ') := rfl

theorem char_beq_false_of_ne {a b : Char} (h : a ≠ b) : (a == b) = false := by
  cases hab : (a == b)
  · rfl
  · exact absurd (by simpa using hab) h

theorem bool_eq_false {b : Bool} (h : ¬ b = true) : b = false := by
  cases b
  · rfl
  · exact absurd rfl h

theorem drops_after_ne_space {a : Char} (h : drops_space_after a = true) :
    (a == ' ') = false := by
  cases hs : (a == ' ')
  · rfl
  · exfalso
    have hv : a = ' ' := by simpa using hs
    subst hv
    exact absurd h (by decide)

theorem drops_before_ne_space {c : Char} (h : drops_space_before c = true) :
    (c == ' ') = false := by
  cases hs : (c == ' ')
  · rfl
  · exfalso
    have hv : c = ' ' := by simpa using hs
    subst hv
    exact absurd h (by decide)

/-- On an input without two adjacent spaces the accumulator never contains
a position the loop would still rewrite. -/
theorem aux_clean :
    ∀ cs r,
      bad_rev_scan r = false →
      pair_scan adj_spaces r = false →
      pair_scan adj_spaces cs = false →
      (head_is_space r = true → head_is_space cs = false) →
      bad_rev_scan (remove_excess_spaces_aux r cs) = false := by
  intro cs
  induction cs with
  | nil =>
    intro r hb _ _ _
    simpa [remove_excess_spaces_aux] using hb
  | cons c cs ih =>
    intro r hb ha hcs hh
    simp only [remove_excess_spaces_aux]
    by_cases g1 : (c == ' ' && ends_with_arrow r) = true
    · -- first arm: the space after "->" is pushed unchanged
      simp only [g1, if_true]
      have gc : c = ' ' := by
        simp only [Bool.and_eq_true] at g1
        simpa using g1.1
      have garr : ends_with_arrow r = true := by
        simp only [Bool.and_eq_true] at g1
        exact g1.2
      subst gc
      cases r with
      | nil => simp [ends_with_arrow] at garr
      | cons b r' =>
        cases r' with
        | nil => simp [ends_with_arrow] at garr
        | cons a r'' =>
          simp only [ends_with_arrow, Bool.and_eq_true] at garr
          obtain ⟨hb1, ha1⟩ := garr
          have hbv : b = '>' := by simpa using hb1
          subst hbv
          refine ih (' ' :: '>' :: a :: r'') ?_ ?_ (pair_scan_cons_false hcs) ?_
          · show ((('>' == ' ' && drops_space_before ' ')
                || (drops_space_after '>' && (' ' == ' ')
                  && !ends_with_arrow ('>' :: a :: r'')))
              || bad_rev_scan ('>' :: a :: r'')) = false
            rw [hb, Bool.or_false]
            rw [show ends_with_arrow ('>' :: a :: r'') = true from by
              simp [ends_with_arrow, ha1]]
            decide
          · show (adj_spaces ' ' '>' || pair_scan adj_spaces ('>' :: a :: r'')) = false
            rw [ha, Bool.or_false]
            decide
          · intro _
            cases cs with
            | nil => rfl
            | cons d cs' =>
              have hd := pair_scan_cons_head hcs
              simpa [adj_spaces, head_is_space_cons] using hd
    · simp only [g1, if_false]
      by_cases g2 : (c == ' ' && head_drops_after r) = true
      · simp only [g2, if_true]
        refine ih r hb ha (pair_scan_cons_false hcs) ?_
        intro hsp
        exfalso
        simp only [Bool.and_eq_true] at g2
        obtain ⟨-, gh⟩ := g2
        cases r with
        | nil => simp [head_drops_after] at gh
        | cons a r' =>
          simp only [head_drops_after] at gh
          simp only [head_is_space_cons] at hsp
          rw [drops_after_ne_space gh] at hsp
          exact Bool.false_ne_true hsp
      · simp only [g2, if_false]
        by_cases g3 : (drops_space_before c && head_is_space r) = true
        · simp only [g3, if_true]
          simp only [Bool.and_eq_true] at g3
          obtain ⟨gbc, gsp⟩ := g3
          have hcne : (c == ' ') = false := drops_before_ne_space gbc
          cases r with
          | nil => simp [head_is_space] at gsp
          | cons a r' =>
            simp only [head_is_space_cons] at gsp
            have hav : a = ' ' := by simpa using gsp
            subst hav
            simp only [List.tail_cons]
            refine ih (c :: r') ?_ ?_ (pair_scan_cons_false hcs) ?_
            · cases r' with
              | nil => rfl
              | cons y r'' =>
                simp only [bad_rev_scan]
                rw [bad_rev_scan_cons_false hb, Bool.or_false]
                have hy : (y == ' ') = false := by
                  have := pair_scan_cons_head ha
                  simpa [adj_spaces] using this
                simp [hy, hcne]
            · cases r' with
              | nil => rfl
              | cons y r'' =>
                simp only [pair_scan]
                rw [pair_scan_cons_false ha, Bool.or_false]
                simp [adj_spaces, hcne]
            · intro hsp
              exfalso
              simp only [head_is_space_cons] at hsp
              rw [hcne] at hsp
              exact Bool.false_ne_true hsp
        · simp only [g3, if_false]
          refine ih (c :: r) ?_ ?_ (pair_scan_cons_false hcs) ?_
          · cases r with
            | nil => rfl
            | cons a r' =>
              simp only [bad_rev_scan]
              rw [hb, Bool.or_false]
              by_cases hc : c = ' '
              · subst hc
                have gha : drops_space_after a = false := by
                  cases hda : drops_space_after a
                  · rfl
                  · exact absurd (by simp [head_drops_after, hda]) g2
                simp [gha, drops_space_before]
              · have hcne : (c == ' ') = false := char_beq_false_of_ne hc
                by_cases hbc : drops_space_before c = true
                · have hasp : (a == ' ') = false := by
                    cases hda : (a == ' ')
                    · rfl
                    · exact absurd (by simp [head_is_space_cons, hbc, hda]) g3
                  simp [hcne, hasp]
                · have hbc' : drops_space_before c = false := bool_eq_false hbc
                  simp [hcne, hbc']
          · cases r with
            | nil => rfl
            | cons a r' =>
              simp only [pair_scan]
              rw [ha, Bool.or_false]
              by_cases hc : c = ' '
              · subst hc
                have hra : (a == ' ') = false := by
                  cases hda : (a == ' ')
                  · rfl
                  · exact absurd (hh (by simp [head_is_space_cons, hda]))
                      (by simp [head_is_space_cons])
                simp [adj_spaces, hra]
              · simp [adj_spaces, char_beq_false_of_ne hc]
          · intro hsp
            simp only [head_is_space_cons] at hsp
            have hcv : c = ' ' := by simpa using hsp
            subst hcv
            cases cs with
            | nil => rfl
            | cons d cs' =>
              have := pair_scan_cons_head hcs
              simp only [head_is_space_cons]
              simpa [adj_spaces] using this

/-- On a string without rewritable positions the loop copies its input
verbatim.  The accumulated part and the remaining part are the reversed and
forward views of one clean string. -/
theorem aux_of_clean :
    ∀ cs r, bad_rev_scan (cs.reverse ++ r) = false →
      remove_excess_spaces_aux r cs = cs.reverse ++ r := by
  intro cs
  induction cs with
  | nil =>
    intro r _
    simp [remove_excess_spaces_aux]
  | cons c cs ih =>
    intro r h
    have h' : bad_rev_scan (cs.reverse ++ (c :: r)) = false := by
      have he : (c :: cs).reverse ++ r = cs.reverse ++ (c :: r) := by
        simp [List.reverse_cons, List.append_assoc]
      rwa [he] at h
    have hsuffix : bad_rev_scan (c :: r) = false :=
      bad_rev_scan_append_right cs.reverse (c :: r) h'
    simp only [remove_excess_spaces_aux]
    by_cases g1 : (c == ' ' && ends_with_arrow r) = true
    · simp only [g1, if_true]
      rw [ih (c :: r) h']
      simp [List.reverse_cons, List.append_assoc]
    · simp only [g1, if_false]
      have g2 : (c == ' ' && head_drops_after r) = false := by
        cases hg2 : (c == ' ' && head_drops_after r)
        · rfl
        · exfalso
          simp only [Bool.and_eq_true] at hg2
          obtain ⟨gc, gh⟩ := hg2
          cases r with
          | nil => simp [head_drops_after] at gh
          | cons a t =>
            have harr : ends_with_arrow (a :: t) = false := by
              cases harr : ends_with_arrow (a :: t)
              · rfl
              · exact absurd (by simp [gc, harr]) g1
            have htop := bad_rev_scan_cons_head hsuffix
            simp only [head_drops_after] at gh
            rw [gh, gc, harr] at htop
            simp at htop
      simp only [g2, if_false]
      by_cases g3 : (drops_space_before c && head_is_space r) = true
      · exfalso
        simp only [Bool.and_eq_true] at g3
        obtain ⟨gb, gs⟩ := g3
        cases r with
        | nil => simp [head_is_space] at gs
        | cons a t =>
          simp only [head_is_space_cons] at gs
          have htop := bad_rev_scan_cons_head hsuffix
          rw [gs, gb] at htop
          simp at htop
      · simp only [g3, if_false]
        rw [ih (c :: r) h']
        simp [List.reverse_cons, List.append_assoc]

/-- C8 counterexample: excess-space normalisation does not drop the space
after `->`.  The source's first match arm (visit.rs:354) has an empty body
and no `continue`, so control falls through to the push and the space
following `->` is kept — as the repository's own unit test expects — so the
claimed conclusion that the output contains no space immediately following
`->` is false already on `"x -> y"`, which normalises to itself. -/
theorem remove_excess_spaces_keeps_space_after_arrow :
    remove_excess_spaces "x -> y" = "x -> y"
    ∧ has_space_after_arrow (remove_excess_spaces "x -> y").data = true :=
  ⟨by decide, by decide⟩

/-- C8 (amended): excess-space normalisation drops each space that appears
after one of `:` `&` `<` `>` — except a space that follows the
two-character sequence `->`, which is pushed unchanged — and drops each
space that appears before one of `:` `,` `<` `>`; on the repository's own
unit-test input it produces exactly the expected output, space after `->`
included. -/
theorem remove_excess_spaces_drop_rules :
    (∀ r cs, ends_with_arrow r = true →
      remove_excess_spaces_aux r (' ' :: cs) =
        remove_excess_spaces_aux (' ' :: r) cs)
    ∧ (∀ r cs, ends_with_arrow r = false → head_drops_after r = true →
      remove_excess_spaces_aux r (' ' :: cs) = remove_excess_spaces_aux r cs)
    ∧ (∀ r cs c, drops_space_before c = true → head_is_space r = true →
      remove_excess_spaces_aux r (c :: cs) =
        remove_excess_spaces_aux (c :: r.tail) cs)
    ∧ remove_excess_spaces
        "<impl Iterator for MergeTrees < AE , BE , AIT , BIT > > :: next -> Option < Self ::  Item >"
        = "<impl Iterator for MergeTrees<AE, BE, AIT, BIT>>::next -> Option<Self::Item>" := by
  refine ⟨?_, ?_, ?_, by decide⟩
  · intro r cs h
    simp [remove_excess_spaces_aux, h]
  · intro r cs harr h
    simp [remove_excess_spaces_aux, harr, h]
  · intro r cs c hc hsp
    have hcne : (c == ' ') = false := drops_before_ne_space hc
    simp [remove_excess_spaces_aux, hcne, hc, hsp]

/-- Witness for C8 (amended) at concrete accumulators. -/
theorem remove_excess_spaces_drop_rules_witness :
    (ends_with_arrow ['>', '-'] = true ∧
      remove_excess_spaces_aux ['>', '-'] [' '] =
        remove_excess_spaces_aux [' ', '>', '-'] [])
    ∧ (ends_with_arrow [':'] = false ∧ head_drops_after [':'] = true ∧
      remove_excess_spaces_aux [':'] [' '] = remove_excess_spaces_aux [':'] [])
    ∧ (drops_space_before ',' = true ∧ head_is_space [' ', 'a'] = true ∧
      remove_excess_spaces_aux [' ', 'a'] [','] =
        remove_excess_spaces_aux [',', 'a'] []) :=
  ⟨⟨by decide, remove_excess_spaces_drop_rules.1 ['>', '-'] [] (by decide)⟩,
    ⟨by decide, by decide,
      remove_excess_spaces_drop_rules.2.1 [':'] [] (by decide) (by decide)⟩,
    ⟨by decide, by decide,
      remove_excess_spaces_drop_rules.2.2.1 [' ', 'a'] [] ',' (by decide)
        (by decide)⟩⟩

/-- C9 counterexample: `remove_excess_spaces` is not idempotent.  On
`"a  ,"` (two spaces before the comma) the first pass pops only one of the
two spaces, producing `"a ,"`, and a second pass then produces `"a,"`. -/
theorem remove_excess_spaces_not_idempotent :
    remove_excess_spaces "a  ," = "a ,"
    ∧ remove_excess_spaces (remove_excess_spaces "a  ,") = "a,"
    ∧ remove_excess_spaces (remove_excess_spaces "a  ,") ≠
        remove_excess_spaces "a  ," := by
  refine ⟨by decide, by decide, by decide⟩

/-- C9 (amended): `remove_excess_spaces` is idempotent on every input that
contains no two adjacent spaces. -/
theorem remove_excess_spaces_idempotent :
    ∀ s : String, pair_scan adj_spaces s.data = false →
      remove_excess_spaces (remove_excess_spaces s) = remove_excess_spaces s := by
  intro s hs
  have hclean : bad_rev_scan (remove_excess_spaces_aux [] s.data) = false := by
    refine aux_clean s.data [] rfl rfl hs ?_
    intro h
    exact absurd h (by decide)
  have hfix := aux_of_clean (remove_excess_spaces_aux [] s.data).reverse []
    (by simpa using hclean)
  show (⟨(remove_excess_spaces_aux []
      (remove_excess_spaces_aux [] s.data).reverse).reverse⟩ : String) = _
  rw [hfix]
  simp [remove_excess_spaces]

/-- Witness for C9 (amended) at a concrete input. -/
theorem remove_excess_spaces_idempotent_witness :
    pair_scan adj_spaces (String.data "a : b") = false
    ∧ remove_excess_spaces (remove_excess_spaces "a : b") =
        remove_excess_spaces "a : b" :=
  ⟨by decide, remove_excess_spaces_idempotent "a : b" (by decide)⟩

/-! ## Mutation-op catalogue (src/visit.rs lines 294-320, 375-380) -/

/-- A segment of a `syn::Path`: its identifier and whether it carries
angle-bracketed or parenthesised arguments. -/
structure PathSegment where
  ident : String
  has_arguments : Bool
deriving DecidableEq, Repr

/-- A `syn::Path`. -/
structure SynPath where
  leading_colon : Bool
  segments : List PathSegment
deriving DecidableEq, Repr

/-- The test `syn::Path::is_ident`: the path is exactly the identifier `s` — no
leading colon, exactly one segment, no segment arguments, identifier `s`. -/
def SynPath.is_ident (p : SynPath) (s : String) : Bool :=
  match p.segments with
  | [seg] => !p.leading_colon && !seg.has_arguments && seg.ident == s
  | _ => false

/-- The `path_is_result` from src/visit.rs: only the last segment is examined. -/
def path_is_result (path : SynPath) : Bool :=
  match path.segments.getLast? with
  | some segment => segment.ident == "Result"
  | none => false

/-- A `syn::Type` as far as `ops_for_return_type` inspects it, together with
its token-stream text (used by `return_type_to_string`). -/
inductive SynType where
  | path (p : SynPath) (tokens : String)
  | other (tokens : String)
deriving DecidableEq, Repr

/-- The type `syn::ReturnType`: either absent or `-> T`. -/
inductive ReturnType where
  | default
  | typed (t : SynType)
deriving DecidableEq, Repr

/-- The `MutationOp` enum (spec §3; defined in the repository outside the
packaged sources). -/
inductive MutationOp where
  | Unit
  | Default
  | True
  | False
  | EmptyString
  | Xyzzy
  | OkDefault
deriving DecidableEq, Repr

/-- The `ops_for_return_type` from src/visit.rs. -/
def ops_for_return_type (return_type : ReturnType) : List MutationOp :=
  match return_type with
  | .default => [MutationOp.Unit]
  | .typed t =>
    match t with
    | .path p _ =>
      if p.is_ident "bool" then
        [MutationOp.True, MutationOp.False]
      else if p.is_ident "String" then
        [MutationOp.EmptyString, MutationOp.Xyzzy]
      else if path_is_result p then
        [MutationOp.OkDefault]
      else
        [MutationOp.Default]
    | .other _ => [MutationOp.Default]

theorem is_ident_ne {p : SynPath} {s t : String} (hst : s ≠ t)
    (h : p.is_ident s = true) : p.is_ident t = false := by
  unfold SynPath.is_ident at h ⊢
  cases hsegs : p.segments with
  | nil => simp [hsegs] at h
  | cons seg rest =>
    cases rest with
    | nil =>
      simp only [hsegs, Bool.and_eq_true, beq_iff_eq] at h
      obtain ⟨⟨h1, h2⟩, hident⟩ := h
      simp only [hsegs, h1, h2, hident, Bool.true_and]
      exact beq_false_of_ne hst
    | cons seg2 rest2 => simp [hsegs]

theorem is_ident_false_of_result {p : SynPath} {s : String} (hs : s ≠ "Result")
    (h : path_is_result p = true) : p.is_ident s = false := by
  unfold path_is_result at h
  unfold SynPath.is_ident
  cases hsegs : p.segments with
  | nil => simp [hsegs] at h
  | cons seg rest =>
    cases rest with
    | nil =>
      simp only [hsegs, List.getLast?_singleton, beq_iff_eq] at h
      have hf : (seg.ident == s) = false := by
        rw [h]
        exact beq_false_of_ne (Ne.symm hs)
      simp [hsegs, hf]
    | cons seg2 rest2 => simp [hsegs]

/-- C1: `ops_for_return_type` realises exactly the spec's mapping table: an
absent return type yields `[Unit]`; an identifier path exactly `bool` yields
`[True, False]`; an identifier path exactly `String` yields
`[EmptyString, Xyzzy]`; a path whose final segment is `Result` (only the
last segment is examined, type arguments are not inspected — in particular
the path parsed from `Result<(), ()>`) yields `[OkDefault]`; any other
typed return yields `[Default]`. -/
theorem ops_for_return_type_table :
    ops_for_return_type ReturnType.default = [MutationOp.Unit]
    ∧ (∀ p tk, p.is_ident "bool" = true →
        ops_for_return_type (ReturnType.typed (SynType.path p tk)) =
          [MutationOp.True, MutationOp.False])
    ∧ (∀ p tk, p.is_ident "String" = true →
        ops_for_return_type (ReturnType.typed (SynType.path p tk)) =
          [MutationOp.EmptyString, MutationOp.Xyzzy])
    ∧ (∀ p tk, path_is_result p = true →
        ops_for_return_type (ReturnType.typed (SynType.path p tk)) =
          [MutationOp.OkDefault])
    ∧ (∀ p tk, p.is_ident "bool" = false → p.is_ident "String" = false →
        path_is_result p = false →
        ops_for_return_type (ReturnType.typed (SynType.path p tk)) =
          [MutationOp.Default])
    ∧ (∀ tk, ops_for_return_type (ReturnType.typed (SynType.other tk)) =
        [MutationOp.Default])
    ∧ ops_for_return_type (ReturnType.typed (SynType.path
        ⟨false, [⟨"Result", true⟩]⟩ "Result < (), () >")) = [MutationOp.OkDefault] := by
  refine ⟨rfl, ?_, ?_, ?_, ?_, fun tk => rfl, by decide⟩
  · intro p tk h
    simp [ops_for_return_type, h]
  · intro p tk h
    have hb : p.is_ident "bool" = false := is_ident_ne (by decide) h
    simp [ops_for_return_type, h, hb]
  · intro p tk h
    have hb : p.is_ident "bool" = false := is_ident_false_of_result (by decide) h
    have hs : p.is_ident "String" = false := is_ident_false_of_result (by decide) h
    simp [ops_for_return_type, h, hb, hs]
  · intro p tk h1 h2 h3
    simp [ops_for_return_type, h1, h2, h3]

/-- Witness for C1 at concrete return types. -/
theorem ops_for_return_type_table_witness :
    (SynPath.is_ident ⟨false, [⟨"bool", false⟩]⟩ "bool" = true ∧
      ops_for_return_type (ReturnType.typed (SynType.path
        ⟨false, [⟨"bool", false⟩]⟩ "bool")) = [MutationOp.True, MutationOp.False])
    ∧ (SynPath.is_ident ⟨false, [⟨"String", false⟩]⟩ "String" = true ∧
      ops_for_return_type (ReturnType.typed (SynType.path
        ⟨false, [⟨"String", false⟩]⟩ "String")) =
        [MutationOp.EmptyString, MutationOp.Xyzzy])
    ∧ (path_is_result ⟨false, [⟨"std", false⟩, ⟨"Result", true⟩]⟩ = true ∧
      ops_for_return_type (ReturnType.typed (SynType.path
        ⟨false, [⟨"std", false⟩, ⟨"Result", true⟩]⟩ "std :: Result < u32, E >")) =
        [MutationOp.OkDefault])
    ∧ ops_for_return_type (ReturnType.typed (SynType.path
        ⟨false, [⟨"u32", false⟩]⟩ "u32")) = [MutationOp.Default] := by
  refine ⟨⟨by decide, ops_for_return_type_table.2.1 _ _ (by decide)⟩,
    ⟨by decide, ops_for_return_type_table.2.2.1 _ _ (by decide)⟩,
    ⟨by decide, ops_for_return_type_table.2.2.2.1 _ _ (by decide)⟩,
    ops_for_return_type_table.2.2.2.2.1 _ _ (by decide) (by decide) (by decide)⟩

/-! ## Build-tool adapter (src/cargo.rs) -/

/-- A tree-relative path, as its forward-slash components (camino paths are
external code; only component-level operations are used). -/
abbrev TreeRelativePath := List String

/-- Modelled from the spec: a compiled glob set (`globset::GlobSet` is
external code), abstracted as its match predicate. -/
structure GlobSet where
  is_match : TreeRelativePath → Bool

/-- Modelled from the spec: a compiled regex set (`regex::RegexSet` is
external code), as the list of its patterns' match predicates. -/
structure RegexSet where
  patterns : List (String → Bool)

def RegexSet.is_empty (rs : RegexSet) : Bool := rs.patterns.isEmpty

def RegexSet.is_match (rs : RegexSet) (s : String) : Bool :=
  rs.patterns.any (fun p => p s)

/-- Modelled from the spec: the `Options` fields read by the core
(`options.rs` is outside the packaged sources; cf. the fields of
`Config` in src/config.rs). -/
structure Options where
  examine_globset : Option GlobSet
  exclude_globset : Option GlobSet
  examine_names : Option RegexSet
  exclude_names : Option RegexSet
  additional_cargo_args : List String
  additional_cargo_test_args : List String

/-- Modelled from the spec: `Phase` with its stable string name
(defined in `outcome.rs`, outside the packaged sources). -/
inductive Phase where
  | check
  | build
  | test
deriving DecidableEq, Repr

/-- Modelled from the spec: `Phase::name`. -/
def Phase.name : Phase → String
  | .check => "check"
  | .build => "build"
  | .test => "test"

/-- The `cargo_bin` from src/cargo.rs: the `CARGO` environment variable if set,
else `"cargo"`.  The environment is passed explicitly. -/
def cargo_bin (cargo_env : Option String) : String :=
  cargo_env.getD "cargo"

/-- The `cargo_argv` from src/cargo.rs. -/
def cargo_argv (cargo_env : Option String) (package_name : Option String)
    (phase : Phase) (options : Options) : List String :=
  let cargo_args := [cargo_bin cargo_env, phase.name]
  let cargo_args := if phase = Phase.check ∨ phase = Phase.build then
      cargo_args ++ ["--tests"]
    else cargo_args
  let cargo_args := match package_name with
    | some package_name => cargo_args ++ ["--package", package_name]
    | none => cargo_args ++ ["--workspace"]
  let cargo_args := cargo_args ++ options.additional_cargo_args
  if phase = Phase.test then cargo_args ++ options.additional_cargo_test_args
  else cargo_args

/-- C2: `cargo_argv` starts with the build-tool binary (the `CARGO`
environment variable if set, else `"cargo"`) and the phase name; `--tests`
is appended exactly when the phase is Check or Build; then `--package
<name>` if a package is given and `--workspace` otherwise (never both);
then all `additional_cargo_args`; and finally, exactly when the phase is
Test, all `additional_cargo_test_args`. -/
theorem cargo_argv_structure :
    ∀ cargo_env package_name phase options,
      cargo_argv cargo_env package_name phase options =
        [cargo_bin cargo_env, Phase.name phase]
        ++ (if phase = Phase.check ∨ phase = Phase.build then ["--tests"] else [])
        ++ (match package_name with
            | some n => ["--package", n]
            | none => ["--workspace"])
        ++ options.additional_cargo_args
        ++ (if phase = Phase.test then options.additional_cargo_test_args else [])
      ∧ (cargo_argv cargo_env package_name phase options).get? 0 =
          some (cargo_bin cargo_env)
      ∧ (cargo_argv cargo_env package_name phase options).get? 1 =
          some (Phase.name phase) := by
  intro cargo_env package_name phase options
  cases phase <;> cases package_name <;>
    simp [cargo_argv, Phase.name]

/-- Rust `Vec::join` for strings, as used by `rustflags`. -/
def join_sep (sep : String) : List String → String
  | [] => ""
  | [x] => x
  | x :: xs => x ++ sep ++ join_sep sep xs

/-- The `CargoSourceTree::rustflags` from src/cargo.rs, with the two environment
variables passed explicitly.  When neither is set the source leaves the list
empty (reading hierarchical config files is an acknowledged TODO). -/
def rustflags (cargo_encoded_rustflags : Option String)
    (rustflags_var : Option String) : String :=
  let flags : List String :=
    match cargo_encoded_rustflags with
    | some rf => rf.splitOn "\x1f"
    | none =>
      match rustflags_var with
      | some rf => rf.splitOn " "
      | none => []
  join_sep "\x1f" (flags ++ ["--cap-lints=allow"])

theorem join_sep_last_suffix (sep : String) :
    ∀ l (c : String), ∃ pre, (join_sep sep (l ++ [c])).data = pre ++ c.data := by
  intro l
  induction l with
  | nil =>
    intro c
    exact ⟨[], by simp [join_sep]⟩
  | cons a l ih =>
    intro c
    cases l with
    | nil =>
      refine ⟨(a ++ sep).data, ?_⟩
      simp [join_sep, String.data_append]
    | cons b l' =>
      obtain ⟨pre, hpre⟩ := ih c
      rw [List.cons_append] at hpre
      refine ⟨(a ++ sep).data ++ pre, ?_⟩
      simp only [List.cons_append, List.append_eq, join_sep, String.data_append,
        hpre, List.append_assoc]

/-- C3: `rustflags` returns the `\x1f`-join of the precedence list — the
`\x1f`-split of `CARGO_ENCODED_RUSTFLAGS` if set, else the space-split of
`RUSTFLAGS` if set, else the empty list — with `--cap-lints=allow` appended
as the final segment; its text always ends with `--cap-lints=allow`. -/
theorem rustflags_spec :
    (∀ s p, rustflags (some s) p =
      join_sep "\x1f" (s.splitOn "\x1f" ++ ["--cap-lints=allow"]))
    ∧ (∀ s, rustflags none (some s) =
      join_sep "\x1f" (s.splitOn " " ++ ["--cap-lints=allow"]))
    ∧ rustflags none none = "--cap-lints=allow"
    ∧ (∀ e p, ∃ pre, (rustflags e p).data = pre ++ ("--cap-lints=allow").data) := by
  refine ⟨fun s p => rfl, fun s => rfl, rfl, ?_⟩
  intro e p
  unfold rustflags
  exact join_sep_last_suffix "\x1f" _ "--cap-lints=allow"

/-! ## Outcome classifier (src/console.rs lines 171-190) -/

/-- Modelled from the spec: `Scenario` (outcome.rs). -/
inductive Scenario where
  | sourceTree
  | baseline
  | mutant
deriving DecidableEq, Repr

/-- Modelled from the spec: `CargoResult` (outcome.rs). -/
inductive CargoResult where
  | success
  | failure
  | timeout
deriving DecidableEq, Repr

/-- Modelled from the spec: the fields of `Outcome` read by
`style_outcome` (outcome.rs). -/
structure Outcome where
  scenario : Scenario
  phase : Phase
  cargo_result : CargoResult
deriving DecidableEq, Repr

/-- The `style_outcome` from src/console.rs, with the terminal styling dropped:
only the label text is modelled. -/
def style_outcome (outcome : Outcome) : String :=
  match outcome.scenario with
  | .sourceTree | .baseline =>
    match outcome.cargo_result with
    | .success => "ok"
    | .failure => "FAILED"
    | .timeout => "TIMEOUT"
  | .mutant =>
    match outcome.phase, outcome.cargo_result with
    | Phase.test, .failure => "caught"
    | Phase.test, .success => "NOT CAUGHT"
    | Phase.build, .success => "build ok"
    | Phase.check, .success => "check ok"
    | Phase.build, .failure => "build failed"
    | Phase.check, .failure => "check failed"
    | _, .timeout => "TIMEOUT"

/-- C5: the outcome classifier's full table: SourceTree and Baseline
scenarios map Success / Failure / Timeout to `ok` / `FAILED` / `TIMEOUT`
regardless of phase, and a Mutant scenario maps (Test, Failure) to
`caught`, (Test, Success) to `NOT CAUGHT`, (Build, Success) to `build ok`,
(Check, Success) to `check ok`, (Build, Failure) to `build failed`,
(Check, Failure) to `check failed`, and any phase with Timeout to
`TIMEOUT`. -/
theorem style_outcome_table :
    (∀ ph, style_outcome ⟨Scenario.sourceTree, ph, CargoResult.success⟩ = "ok"
      ∧ style_outcome ⟨Scenario.baseline, ph, CargoResult.success⟩ = "ok"
      ∧ style_outcome ⟨Scenario.sourceTree, ph, CargoResult.failure⟩ = "FAILED"
      ∧ style_outcome ⟨Scenario.baseline, ph, CargoResult.failure⟩ = "FAILED"
      ∧ style_outcome ⟨Scenario.sourceTree, ph, CargoResult.timeout⟩ = "TIMEOUT"
      ∧ style_outcome ⟨Scenario.baseline, ph, CargoResult.timeout⟩ = "TIMEOUT"
      ∧ style_outcome ⟨Scenario.mutant, ph, CargoResult.timeout⟩ = "TIMEOUT")
    ∧ style_outcome ⟨Scenario.mutant, Phase.test, CargoResult.failure⟩ = "caught"
    ∧ style_outcome ⟨Scenario.mutant, Phase.test, CargoResult.success⟩ = "NOT CAUGHT"
    ∧ style_outcome ⟨Scenario.mutant, Phase.build, CargoResult.success⟩ = "build ok"
    ∧ style_outcome ⟨Scenario.mutant, Phase.check, CargoResult.success⟩ = "check ok"
    ∧ style_outcome ⟨Scenario.mutant, Phase.build, CargoResult.failure⟩ = "build failed"
    ∧ style_outcome ⟨Scenario.mutant, Phase.check, CargoResult.failure⟩ = "check failed" := by
  refine ⟨?_, rfl, rfl, rfl, rfl, rfl, rfl⟩
  intro ph
  cases ph <;> exact ⟨rfl, rfl, rfl, rfl, rfl, rfl, rfl⟩

/-! ## AST visitor (src/visit.rs lines 115-291) -/

/-- An attribute, as far as the exclusion checks inspect it: whether it is
`#[cfg(test)]`, `#[test]`, or contains `mutants::skip` (the source's
`attr_is_cfg_test` / `attr_is_test` / `attr_is_mutants_skip` parse the syn
meta tree; we record the outcome of each test). -/
structure Attr where
  is_cfg_test : Bool
  is_test : Bool
  is_mutants_skip : Bool
deriving DecidableEq, Repr

/-- The `attrs_excluded` from src/visit.rs. -/
def attrs_excluded (attrs : List Attr) : Bool :=
  attrs.any (fun attr => attr.is_cfg_test || attr.is_test || attr.is_mutants_skip)

/-- Modelled from the spec: `SourceFile` (source.rs) — tree-relative path,
shared package name, raw code text. -/
structure SourceFile where
  tree_relative_path : TreeRelativePath
  package_name : String
  code : String
deriving DecidableEq, Repr

/-- Modelled from the spec: the fields of `Mutant` (mutate.rs) that
`Mutant::new` receives in `collect_fn_mutants`; the span is opaque. -/
structure Mutant where
  source_file : SourceFile
  op : MutationOp
  full_function_name : String
  return_type : String
  span : Nat
deriving DecidableEq, Repr

/-- The token-stream text of a type, as recorded in the model. -/
def SynType.tokens : SynType → String
  | .path _ tk => tk
  | .other tk => tk

/-- The `type_name_string` from src/visit.rs. -/
def type_name_string (ty : SynType) : String := ty.tokens

/-- The `return_type_to_string` from src/visit.rs (the `RArrow` token prints as
`->`). -/
def return_type_to_string : ReturnType → String
  | .default => ""
  | .typed typ => "-> " ++ remove_excess_spaces typ.tokens

mutual
/-- A file item as the visitor dispatches on it: `fn`, `impl`, `mod`, or
anything else (a leaf for the traversal). -/
inductive Item where
  | itemFn (attrs : List Attr) (ident : String) (output : ReturnType)
      (block : Block) (span : Nat)
  | itemImpl (attrs : List Attr) (self_ty : SynType)
      (trait_last_segment : Option String) (items : List ImplItem)
  | itemMod (attrs : List Attr) (ident : String) (content : Option (List Item))
  | otherItem
/-- An item inside an `impl` block. -/
inductive ImplItem where
  | method (attrs : List Attr) (ident : String) (output : ReturnType)
      (block : Block) (span : Nat)
  | otherImplItem
/-- A function body: its statements. -/
inductive Block where
  | mk (stmts : List Stmt)
/-- A statement: an item statement, or anything else. -/
inductive Stmt where
  | itemStmt (item : Item)
  | otherStmt
end

def Block.stmts : Block → List Stmt
  | .mk stmts => stmts

/-- The `block_is_empty` from src/visit.rs. -/
def block_is_empty (block : Block) : Bool := block.stmts.isEmpty

/-- The `DiscoveryVisitor` state from src/visit.rs. -/
structure DiscoveryVisitor where
  mutants : List Mutant
  source_file : SourceFile
  root : TreeRelativePath
  namespace_stack : List String
  more_files : List TreeRelativePath
deriving DecidableEq, Repr

/-- The `DiscoveryVisitor::collect_fn_mutants` from src/visit.rs. -/
def collect_fn_mutants (v : DiscoveryVisitor) (return_type : ReturnType)
    (span : Nat) : DiscoveryVisitor :=
  let full_function_name := String.intercalate "::" v.namespace_stack
  let return_type_str := return_type_to_string return_type
  let new_mutants := (ops_for_return_type return_type).map
    (fun op => Mutant.mk v.source_file op full_function_name return_type_str span)
  { v with mutants := v.mutants ++ new_mutants }

/-- camino `ends_with` for a single normal component. -/
def path_ends_with (p : TreeRelativePath) (name : String) : Bool :=
  p.getLast? == some name

/-- camino `parent` at the component level (the source `expect`s it). -/
def path_parent (p : TreeRelativePath) : TreeRelativePath := p.dropLast

/-- camino: drop the final extension of a file name, as `with_extension("")`
does (a leading dot alone is not an extension). -/
def drop_final_extension (s : String) : String :=
  match s.splitOn "." with
  | [] => s
  | [_] => s
  | ["", _] => s
  | parts => String.intercalate "." parts.dropLast

/-- camino `with_extension("")` applied to the last component. -/
def path_with_extension_empty (p : TreeRelativePath) : TreeRelativePath :=
  match p.getLast? with
  | some last => p.dropLast ++ [drop_final_extension last]
  | none => p

section Visitor

variable (fs : TreeRelativePath → Bool)

/-- The external-`mod` file resolution of `visit_item_mod` (src/visit.rs
lines 256-289): the sub-module directory is the current file's directory for
`mod.rs` / `lib.rs` / `main.rs`, else the current file name without its
extension; then `<dir>/<name>.rs` and `<dir>/<name>/mod.rs` are tried in
order and the first existing file (oracle `fs`) is returned. -/
def find_mod_file (root : TreeRelativePath) (source_file : SourceFile)
    (mod_name : String) : Option TreeRelativePath :=
  let my_path := source_file.tree_relative_path
  let dir := if path_ends_with my_path "mod.rs"
      || path_ends_with my_path "lib.rs"
      || path_ends_with my_path "main.rs" then
      path_parent my_path
    else
      path_with_extension_empty my_path
  [dir ++ [mod_name ++ ".rs"], dir ++ [mod_name, "mod.rs"]].find?
    (fun relative_path => fs (root ++ relative_path))

mutual

/-- The visitor dispatch of src/visit.rs: `visit_item_fn`,
`visit_item_impl` and `visit_item_mod`, with `in_namespace` inlined as
push / work / pop.  The filesystem probe `full_path.is_file()` of the
external-`mod` resolution is the oracle `fs`. -/
def visit_item (v : DiscoveryVisitor) : Item → DiscoveryVisitor
  | .itemFn attrs ident output block span =>
    let function_name := remove_excess_spaces ident
    if attrs_excluded attrs then v
    else if block_is_empty block then v
    else
      let name := remove_excess_spaces function_name
      let v1 : DiscoveryVisitor :=
        { v with namespace_stack := v.namespace_stack ++ [name] }
      let v2 := collect_fn_mutants v1 output span
      let v3 := visit_block v2 block
      { v3 with namespace_stack := v3.namespace_stack.dropLast }
  | .itemImpl attrs self_ty trait_last_segment items =>
    if attrs_excluded attrs then v
    else
      let type_name := type_name_string self_ty
      match trait_last_segment with
      | some trait_name =>
        if trait_name == "Default" then v
        else
          let name0 := "<impl " ++ trait_name ++ " for "
              ++ remove_excess_spaces type_name ++ ">"
          let name := remove_excess_spaces name0
          let v1 : DiscoveryVisitor :=
            { v with namespace_stack := v.namespace_stack ++ [name] }
          let v2 := visit_impl_items v1 items
          { v2 with namespace_stack := v2.namespace_stack.dropLast }
      | none =>
        let name := remove_excess_spaces type_name
        let v1 : DiscoveryVisitor :=
          { v with namespace_stack := v.namespace_stack ++ [name] }
        let v2 := visit_impl_items v1 items
        { v2 with namespace_stack := v2.namespace_stack.dropLast }
  | .itemMod attrs ident content =>
    if attrs_excluded attrs then v
    else
      match content with
      | some items =>
        -- inline `mod name { .. }`: no file resolution, visit the content
        let name := remove_excess_spaces ident
        let v2 : DiscoveryVisitor :=
          { v with namespace_stack := v.namespace_stack ++ [name] }
        let v3 := visit_items v2 items
        { v3 with namespace_stack := v3.namespace_stack.dropLast }
      | none =>
        -- `mod name;`: resolve the external file, then the (empty) recursion
        -- still runs inside the namespace
        let v1 := match find_mod_file fs v.root v.source_file ident with
          | some relative_path =>
            { v with more_files := v.more_files ++ [relative_path] }
          | none => v
        let name := remove_excess_spaces ident
        let v2 : DiscoveryVisitor :=
          { v1 with namespace_stack := v1.namespace_stack ++ [name] }
        { v2 with namespace_stack := v2.namespace_stack.dropLast }
  | .otherItem => v

def visit_block (v : DiscoveryVisitor) : Block → DiscoveryVisitor
  | .mk stmts => visit_stmts v stmts

def visit_stmts (v : DiscoveryVisitor) : List Stmt → DiscoveryVisitor
  | [] => v
  | s :: rest => visit_stmts (visit_stmt v s) rest

def visit_stmt (v : DiscoveryVisitor) : Stmt → DiscoveryVisitor
  | .itemStmt i => visit_item v i
  | .otherStmt => v

def visit_impl_items (v : DiscoveryVisitor) : List ImplItem → DiscoveryVisitor
  | [] => v
  | i :: rest => visit_impl_items (visit_impl_item v i) rest

/-- The `visit_impl_item_method` from src/visit.rs: constructors named `new`
are skipped in addition to the usual checks. -/
def visit_impl_item (v : DiscoveryVisitor) : ImplItem → DiscoveryVisitor
  | .method attrs ident output block span =>
    if attrs_excluded attrs || ident == "new" || block_is_empty block then v
    else
      let function_name := remove_excess_spaces ident
      let name := remove_excess_spaces function_name
      let v1 : DiscoveryVisitor :=
        { v with namespace_stack := v.namespace_stack ++ [name] }
      let v2 := collect_fn_mutants v1 output span
      let v3 := visit_block v2 block
      { v3 with namespace_stack := v3.namespace_stack.dropLast }
  | .otherImplItem => v

def visit_items (v : DiscoveryVisitor) : List Item → DiscoveryVisitor
  | [] => v
  | i :: rest => visit_items (visit_item v i) rest

end

/-- The visitor part of `walk_file` (src/visit.rs lines 96-113): parsing is
external, so the visitor receives the parsed items of the file. -/
def visit_file (root : TreeRelativePath) (source_file : SourceFile)
    (items : List Item) : DiscoveryVisitor :=
  visit_items fs
    { mutants := [], source_file := source_file, root := root,
      namespace_stack := [], more_files := [] } items

end Visitor

/-- A string that is the image of excess-space normalisation. -/
def IsNormalized (n : String) : Prop := ∃ s, n = remove_excess_spaces s

/-- What one visit step guarantees: the namespace stack is restored (every
push is matched by a pop of the same name), mutants are only appended, and —
when the starting stack is made of normalised names — every appended mutant's
`full_function_name` is the `::`-join of a stack of normalised names. -/
def VisitorStep (v w : DiscoveryVisitor) : Prop :=
  w.namespace_stack = v.namespace_stack ∧
  ∃ nl, w.mutants = v.mutants ++ nl ∧
    ((∀ n ∈ v.namespace_stack, IsNormalized n) →
      ∀ m ∈ nl, ∃ stk, (∀ n ∈ stk, IsNormalized n) ∧
        m.full_function_name = String.intercalate "::" stk)

theorem visitor_step_refl (v : DiscoveryVisitor) : VisitorStep v v :=
  ⟨rfl, [], by simp, fun _ m hm => absurd hm (List.not_mem_nil m)⟩

theorem visitor_step_trans {v w u : DiscoveryVisitor}
    (h1 : VisitorStep v w) (h2 : VisitorStep w u) : VisitorStep v u := by
  obtain ⟨hs1, nl1, hm1, hp1⟩ := h1
  obtain ⟨hs2, nl2, hm2, hp2⟩ := h2
  refine ⟨hs2.trans hs1, nl1 ++ nl2, ?_, ?_⟩
  · rw [hm2, hm1, List.append_assoc]
  · intro hnorm m hm
    rcases List.mem_append.mp hm with h | h
    · exact hp1 hnorm m h
    · refine hp2 ?_ m h
      intro n hn
      exact hnorm n (by rwa [hs1] at hn)

theorem visitor_step_collect (v : DiscoveryVisitor) (rt : ReturnType)
    (span : Nat) : VisitorStep v (collect_fn_mutants v rt span) := by
  refine ⟨rfl, (ops_for_return_type rt).map (fun op =>
    Mutant.mk v.source_file op (String.intercalate "::" v.namespace_stack)
      (return_type_to_string rt) span), rfl, ?_⟩
  intro hnorm m hm
  refine ⟨v.namespace_stack, hnorm, ?_⟩
  obtain ⟨op, -, rfl⟩ := List.mem_map.mp hm
  rfl

theorem visitor_step_in_namespace {v v3 : DiscoveryVisitor} {name : String}
    (hnorm : IsNormalized name)
    (hstep : VisitorStep
      { v with namespace_stack := v.namespace_stack ++ [name] } v3) :
    VisitorStep v { v3 with namespace_stack := v3.namespace_stack.dropLast } := by
  obtain ⟨hs, nl, hm, hp⟩ := hstep
  refine ⟨?_, nl, hm, ?_⟩
  · show v3.namespace_stack.dropLast = v.namespace_stack
    rw [hs]
    simp
  · intro hnorm0 m hm'
    refine hp ?_ m hm'
    intro n hn
    simp only [List.mem_append, List.mem_singleton] at hn
    rcases hn with h | h
    · exact hnorm0 n h
    · exact h ▸ hnorm

theorem visitor_step_more_files (v : DiscoveryVisitor)
    (extra : List TreeRelativePath) :
    VisitorStep v { v with more_files := v.more_files ++ extra } :=
  ⟨rfl, [], by simp, fun _ m hm => absurd hm (List.not_mem_nil m)⟩

theorem visit_item_fn_skip (fs : TreeRelativePath → Bool) (v : DiscoveryVisitor)
    (attrs : List Attr) (ident : String) (output : ReturnType) (block : Block)
    (span : Nat) (h : attrs_excluded attrs = true) :
    visit_item fs v (Item.itemFn attrs ident output block span) = v := by
  simp [visit_item, h]

theorem visit_item_fn_empty (fs : TreeRelativePath → Bool) (v : DiscoveryVisitor)
    (attrs : List Attr) (ident : String) (output : ReturnType) (block : Block)
    (span : Nat) (h1 : attrs_excluded attrs = false)
    (h2 : block_is_empty block = true) :
    visit_item fs v (Item.itemFn attrs ident output block span) = v := by
  simp [visit_item, h1, h2]

theorem visit_item_fn_go (fs : TreeRelativePath → Bool) (v : DiscoveryVisitor)
    (attrs : List Attr) (ident : String) (output : ReturnType) (block : Block)
    (span : Nat) (h1 : attrs_excluded attrs = false)
    (h2 : block_is_empty block = false) :
    visit_item fs v (Item.itemFn attrs ident output block span) =
      { visit_block fs (collect_fn_mutants
          { v with namespace_stack := v.namespace_stack ++
              [remove_excess_spaces (remove_excess_spaces ident)] } output span) block
        with namespace_stack := (visit_block fs (collect_fn_mutants
          { v with namespace_stack := v.namespace_stack ++
              [remove_excess_spaces (remove_excess_spaces ident)] } output span)
          block).namespace_stack.dropLast } := by
  simp [visit_item, h1, h2]

theorem visit_item_impl_skip (fs : TreeRelativePath → Bool) (v : DiscoveryVisitor)
    (attrs : List Attr) (self_ty : SynType) (tr : Option String)
    (items : List ImplItem) (h : attrs_excluded attrs = true) :
    visit_item fs v (Item.itemImpl attrs self_ty tr items) = v := by
  simp [visit_item, h]

theorem visit_item_impl_default (fs : TreeRelativePath → Bool)
    (v : DiscoveryVisitor) (attrs : List Attr) (self_ty : SynType)
    (items : List ImplItem) (h : attrs_excluded attrs = false) :
    visit_item fs v (Item.itemImpl attrs self_ty (some "Default") items) = v := by
  simp [visit_item, h]

theorem visit_item_impl_trait_go (fs : TreeRelativePath → Bool)
    (v : DiscoveryVisitor) (attrs : List Attr) (self_ty : SynType)
    (trait_name : String) (items : List ImplItem)
    (h1 : attrs_excluded attrs = false) (h2 : (trait_name == "Default") = false) :
    visit_item fs v (Item.itemImpl attrs self_ty (some trait_name) items) =
      { visit_impl_items fs
          { v with namespace_stack := v.namespace_stack ++
              [remove_excess_spaces ("<impl " ++ trait_name ++ " for "
                ++ remove_excess_spaces (type_name_string self_ty) ++ ">")] } items
        with namespace_stack := (visit_impl_items fs
          { v with namespace_stack := v.namespace_stack ++
              [remove_excess_spaces ("<impl " ++ trait_name ++ " for "
                ++ remove_excess_spaces (type_name_string self_ty) ++ ">")] }
          items).namespace_stack.dropLast } := by
  simp [visit_item, h1, h2]

theorem visit_item_impl_plain_go (fs : TreeRelativePath → Bool)
    (v : DiscoveryVisitor) (attrs : List Attr) (self_ty : SynType)
    (items : List ImplItem) (h1 : attrs_excluded attrs = false) :
    visit_item fs v (Item.itemImpl attrs self_ty none items) =
      { visit_impl_items fs
          { v with namespace_stack := v.namespace_stack ++
              [remove_excess_spaces (type_name_string self_ty)] } items
        with namespace_stack := (visit_impl_items fs
          { v with namespace_stack := v.namespace_stack ++
              [remove_excess_spaces (type_name_string self_ty)] }
          items).namespace_stack.dropLast } := by
  simp [visit_item, h1]

theorem visit_item_mod_skip (fs : TreeRelativePath → Bool) (v : DiscoveryVisitor)
    (attrs : List Attr) (ident : String) (content : Option (List Item))
    (h : attrs_excluded attrs = true) :
    visit_item fs v (Item.itemMod attrs ident content) = v := by
  cases content <;> simp [visit_item, h]

theorem visit_item_mod_inline_go (fs : TreeRelativePath → Bool)
    (v : DiscoveryVisitor) (attrs : List Attr) (ident : String)
    (items : List Item) (h1 : attrs_excluded attrs = false) :
    visit_item fs v (Item.itemMod attrs ident (some items)) =
      { visit_items fs
          { v with namespace_stack := v.namespace_stack ++
              [remove_excess_spaces ident] } items
        with namespace_stack := (visit_items fs
          { v with namespace_stack := v.namespace_stack ++
              [remove_excess_spaces ident] }
          items).namespace_stack.dropLast } := by
  simp [visit_item, h1]

theorem visit_item_mod_found (fs : TreeRelativePath → Bool)
    (v : DiscoveryVisitor) (attrs : List Attr) (ident : String)
    (rel : TreeRelativePath) (h1 : attrs_excluded attrs = false)
    (hfind : find_mod_file fs v.root v.source_file ident = some rel) :
    visit_item fs v (Item.itemMod attrs ident none) =
      { v with more_files := v.more_files ++ [rel] } := by
  simp [visit_item, h1, hfind]

theorem visit_item_mod_not_found (fs : TreeRelativePath → Bool)
    (v : DiscoveryVisitor) (attrs : List Attr) (ident : String)
    (h1 : attrs_excluded attrs = false)
    (hfind : find_mod_file fs v.root v.source_file ident = none) :
    visit_item fs v (Item.itemMod attrs ident none) = v := by
  simp [visit_item, h1, hfind]

theorem visit_item_other (fs : TreeRelativePath → Bool) (v : DiscoveryVisitor) :
    visit_item fs v Item.otherItem = v := by
  simp [visit_item]

theorem visit_impl_item_skip (fs : TreeRelativePath → Bool)
    (v : DiscoveryVisitor) (attrs : List Attr) (ident : String)
    (output : ReturnType) (block : Block) (span : Nat)
    (h : (attrs_excluded attrs || ident == "new" || block_is_empty block) = true) :
    visit_impl_item fs v (ImplItem.method attrs ident output block span) = v := by
  simp [visit_impl_item, h]

theorem visit_impl_item_go (fs : TreeRelativePath → Bool)
    (v : DiscoveryVisitor) (attrs : List Attr) (ident : String)
    (output : ReturnType) (block : Block) (span : Nat)
    (h : (attrs_excluded attrs || ident == "new" || block_is_empty block) = false) :
    visit_impl_item fs v (ImplItem.method attrs ident output block span) =
      { visit_block fs (collect_fn_mutants
          { v with namespace_stack := v.namespace_stack ++
              [remove_excess_spaces (remove_excess_spaces ident)] } output span) block
        with namespace_stack := (visit_block fs (collect_fn_mutants
          { v with namespace_stack := v.namespace_stack ++
              [remove_excess_spaces (remove_excess_spaces ident)] } output span)
          block).namespace_stack.dropLast } := by
  simp [visit_impl_item, h]

theorem visit_impl_item_other (fs : TreeRelativePath → Bool)
    (v : DiscoveryVisitor) :
    visit_impl_item fs v ImplItem.otherImplItem = v := by
  simp [visit_impl_item]

mutual

theorem visit_item_step (fs : TreeRelativePath → Bool)
    (v : DiscoveryVisitor) (i : Item) : VisitorStep v (visit_item fs v i) := by
  match i with
  | .itemFn attrs ident output block span =>
    by_cases h1 : attrs_excluded attrs = true
    · rw [visit_item_fn_skip fs v attrs ident output block span h1]
      exact visitor_step_refl v
    · have h1' := bool_eq_false h1
      by_cases h2 : block_is_empty block = true
      · rw [visit_item_fn_empty fs v attrs ident output block span h1' h2]
        exact visitor_step_refl v
      · have h2' := bool_eq_false h2
        rw [visit_item_fn_go fs v attrs ident output block span h1' h2']
        exact @visitor_step_in_namespace _ _
          (remove_excess_spaces (remove_excess_spaces ident))
          ⟨remove_excess_spaces ident, rfl⟩
          (visitor_step_trans (visitor_step_collect _ output span)
            (visit_block_step fs _ block))
  | .itemImpl attrs self_ty trait_last_segment items =>
    by_cases h1 : attrs_excluded attrs = true
    · rw [visit_item_impl_skip fs v attrs self_ty trait_last_segment items h1]
      exact visitor_step_refl v
    · have h1' := bool_eq_false h1
      cases trait_last_segment with
      | some trait_name =>
        by_cases h2 : trait_name = "Default"
        · subst h2
          rw [visit_item_impl_default fs v attrs self_ty items h1']
          exact visitor_step_refl v
        · rw [visit_item_impl_trait_go fs v attrs self_ty trait_name items h1'
            (beq_false_of_ne h2)]
          exact @visitor_step_in_namespace _ _
            (remove_excess_spaces ("<impl " ++ trait_name ++ " for "
              ++ remove_excess_spaces (type_name_string self_ty) ++ ">"))
            ⟨_, rfl⟩
            (visit_impl_items_step fs _ items)
      | none =>
        rw [visit_item_impl_plain_go fs v attrs self_ty items h1']
        exact @visitor_step_in_namespace _ _
          (remove_excess_spaces (type_name_string self_ty))
          ⟨type_name_string self_ty, rfl⟩
          (visit_impl_items_step fs _ items)
  | .itemMod attrs ident content =>
    by_cases h1 : attrs_excluded attrs = true
    · rw [visit_item_mod_skip fs v attrs ident content h1]
      exact visitor_step_refl v
    · have h1' := bool_eq_false h1
      cases content with
      | some items =>
        rw [visit_item_mod_inline_go fs v attrs ident items h1']
        exact @visitor_step_in_namespace _ _ (remove_excess_spaces ident)
          ⟨ident, rfl⟩ (visit_items_step fs _ items)
      | none =>
        cases hfind : find_mod_file fs v.root v.source_file ident with
        | some rel =>
          rw [visit_item_mod_found fs v attrs ident rel h1' hfind]
          exact visitor_step_more_files v [rel]
        | none =>
          rw [visit_item_mod_not_found fs v attrs ident h1' hfind]
          exact visitor_step_refl v
  | .otherItem =>
    rw [visit_item_other fs v]
    exact visitor_step_refl v

termination_by sizeOf i

theorem visit_block_step (fs : TreeRelativePath → Bool)
    (v : DiscoveryVisitor) (b : Block) : VisitorStep v (visit_block fs v b) := by
  match b with
  | .mk stmts =>
    simp only [visit_block]
    exact visit_stmts_step fs v stmts

termination_by sizeOf b

theorem visit_stmts_step (fs : TreeRelativePath → Bool)
    (v : DiscoveryVisitor) (stmts : List Stmt) :
    VisitorStep v (visit_stmts fs v stmts) := by
  match stmts with
  | [] => exact visitor_step_refl v
  | s :: rest =>
    simp only [visit_stmts]
    exact visitor_step_trans (visit_stmt_step fs v s)
      (visit_stmts_step fs _ rest)

termination_by sizeOf stmts

theorem visit_stmt_step (fs : TreeRelativePath → Bool)
    (v : DiscoveryVisitor) (s : Stmt) : VisitorStep v (visit_stmt fs v s) := by
  match s with
  | .itemStmt i =>
    simp only [visit_stmt]
    exact visit_item_step fs v i
  | .otherStmt => exact visitor_step_refl v

termination_by sizeOf s

theorem visit_impl_items_step (fs : TreeRelativePath → Bool)
    (v : DiscoveryVisitor) (items : List ImplItem) :
    VisitorStep v (visit_impl_items fs v items) := by
  match items with
  | [] => exact visitor_step_refl v
  | i :: rest =>
    simp only [visit_impl_items]
    exact visitor_step_trans (visit_impl_item_step fs v i)
      (visit_impl_items_step fs _ rest)

termination_by sizeOf items

theorem visit_impl_item_step (fs : TreeRelativePath → Bool)
    (v : DiscoveryVisitor) (i : ImplItem) :
    VisitorStep v (visit_impl_item fs v i) := by
  match i with
  | .method attrs ident output block span =>
    by_cases h1 : (attrs_excluded attrs || ident == "new"
        || block_is_empty block) = true
    · rw [visit_impl_item_skip fs v attrs ident output block span h1]
      exact visitor_step_refl v
    · rw [visit_impl_item_go fs v attrs ident output block span (bool_eq_false h1)]
      exact @visitor_step_in_namespace _ _
        (remove_excess_spaces (remove_excess_spaces ident))
        ⟨remove_excess_spaces ident, rfl⟩
        (visitor_step_trans (visitor_step_collect _ output span)
          (visit_block_step fs _ block))
  | .otherImplItem =>
    rw [visit_impl_item_other fs v]
    exact visitor_step_refl v

termination_by sizeOf i

theorem visit_items_step (fs : TreeRelativePath → Bool)
    (v : DiscoveryVisitor) (items : List Item) :
    VisitorStep v (visit_items fs v items) := by
  match items with
  | [] => exact visitor_step_refl v
  | i :: rest =>
    simp only [visit_items]
    exact visitor_step_trans (visit_item_step fs v i)
      (visit_items_step fs _ rest)

termination_by sizeOf items
end

/-- C7: every mutant emitted by the AST visitor has `full_function_name`
equal to the `::`-join of the namespace stack at the moment of its emission,
where every element of that stack has had excess-space normalisation
applied; and every namespace push is matched by a pop of the same name on
exit, so any visit leaves the stack unchanged (empty for a whole file). -/
theorem full_function_name_is_stack_join :
    ∀ (fs : TreeRelativePath → Bool) (root : TreeRelativePath)
      (source_file : SourceFile) (items : List Item),
      (visit_file fs root source_file items).namespace_stack = []
      ∧ (∀ v i, (visit_item fs v i).namespace_stack = v.namespace_stack)
      ∧ ∀ m ∈ (visit_file fs root source_file items).mutants,
          ∃ stk, (∀ n ∈ stk, IsNormalized n)
            ∧ m.full_function_name = String.intercalate "::" stk := by
  intro fs root source_file items
  obtain ⟨hs, nl, hm, hp⟩ := visit_items_step fs
    { mutants := [], source_file := source_file, root := root,
      namespace_stack := [], more_files := [] } items
  refine ⟨hs, fun v i => (visit_item_step fs v i).1, ?_⟩
  intro m hm'
  have hnl : (visit_file fs root source_file items).mutants = nl := by
    show (visit_items fs _ items).mutants = nl
    rw [hm]
    simp
  refine hp ?_ m (hnl ▸ hm')
  intro n hn
  exact absurd hn (List.not_mem_nil n)

/-- A filesystem oracle on which no path exists. -/
def fs_none : TreeRelativePath → Bool := fun _ => false

/-- A sample source file for concrete witnesses. -/
def sample_source_file : SourceFile := ⟨["src", "lib.rs"], "demo", ""⟩

/-- A sample visitor state for concrete witnesses. -/
def sample_visitor : DiscoveryVisitor := ⟨[], sample_source_file, [], [], []⟩

/-- Witness for C7 at a concrete file. -/
theorem full_function_name_is_stack_join_witness :
    (Mutant.mk sample_source_file MutationOp.Unit "foo" "" 7) ∈
      (visit_file fs_none [] sample_source_file
        [Item.itemFn [] "foo" ReturnType.default (Block.mk [Stmt.otherStmt]) 7]).mutants
    ∧ ∃ stk, (∀ n ∈ stk, IsNormalized n)
        ∧ (Mutant.mk sample_source_file MutationOp.Unit "foo" "" 7).full_function_name
            = String.intercalate "::" stk :=
  ⟨by decide, (full_function_name_is_stack_join fs_none [] sample_source_file
      [Item.itemFn [] "foo" ReturnType.default (Block.mk [Stmt.otherStmt]) 7]).2.2
    (Mutant.mk sample_source_file MutationOp.Unit "foo" "" 7) (by decide)⟩

theorem ops_for_return_type_ne_nil : ∀ rt, ops_for_return_type rt ≠ [] := by
  intro rt
  match rt with
  | .default => simp [ops_for_return_type]
  | .typed (SynType.path p tk) =>
    simp only [ops_for_return_type]
    split_ifs <;> simp
  | .typed (SynType.other tk) => simp [ops_for_return_type]

/-- C10: `ops_for_return_type` never returns an empty list, so every
function body that passes the skip checks (attributes, empty body,
constructor name `new`) contributes at least one mutant. -/
theorem eligible_fn_contributes_mutants :
    (∀ rt, ops_for_return_type rt ≠ [])
    ∧ (∀ (fs : TreeRelativePath → Bool) (v : DiscoveryVisitor) attrs ident
        output block span,
        attrs_excluded attrs = false → block_is_empty block = false →
        v.mutants.length <
          (visit_item fs v
            (Item.itemFn attrs ident output block span)).mutants.length)
    ∧ (∀ (fs : TreeRelativePath → Bool) (v : DiscoveryVisitor) attrs ident
        output block span,
        (attrs_excluded attrs || ident == "new" || block_is_empty block) = false →
        v.mutants.length <
          (visit_impl_item fs v
            (ImplItem.method attrs ident output block span)).mutants.length) := by
  refine ⟨ops_for_return_type_ne_nil, ?_, ?_⟩
  · intro fs v attrs ident output block span h1 h2
    rw [visit_item_fn_go fs v attrs ident output block span h1 h2]
    obtain ⟨-, nl, hm, -⟩ := visit_block_step fs (collect_fn_mutants
      { v with namespace_stack := v.namespace_stack ++
          [remove_excess_spaces (remove_excess_spaces ident)] } output span) block
    show v.mutants.length < (visit_block fs _ block).mutants.length
    rw [hm]
    have hpos : 0 < (ops_for_return_type output).length :=
      List.length_pos.mpr (ops_for_return_type_ne_nil output)
    simp only [collect_fn_mutants, List.length_append, List.length_map]
    omega
  · intro fs v attrs ident output block span h1
    rw [visit_impl_item_go fs v attrs ident output block span h1]
    obtain ⟨-, nl, hm, -⟩ := visit_block_step fs (collect_fn_mutants
      { v with namespace_stack := v.namespace_stack ++
          [remove_excess_spaces (remove_excess_spaces ident)] } output span) block
    show v.mutants.length < (visit_block fs _ block).mutants.length
    rw [hm]
    have hpos : 0 < (ops_for_return_type output).length :=
      List.length_pos.mpr (ops_for_return_type_ne_nil output)
    simp only [collect_fn_mutants, List.length_append, List.length_map]
    omega

/-- Witness for C10 at a concrete function and method. -/
theorem eligible_fn_contributes_mutants_witness :
    ops_for_return_type ReturnType.default ≠ []
    ∧ (attrs_excluded [] = false ∧ block_is_empty (Block.mk [Stmt.otherStmt]) = false ∧
      sample_visitor.mutants.length <
        (visit_item fs_none sample_visitor (Item.itemFn [] "foo"
          ReturnType.default (Block.mk [Stmt.otherStmt]) 0)).mutants.length)
    ∧ ((attrs_excluded [] || ("get" : String) == "new"
          || block_is_empty (Block.mk [Stmt.otherStmt])) = false ∧
      sample_visitor.mutants.length <
        (visit_impl_item fs_none sample_visitor (ImplItem.method [] "get"
          ReturnType.default (Block.mk [Stmt.otherStmt]) 0)).mutants.length) :=
  ⟨eligible_fn_contributes_mutants.1 ReturnType.default,
    ⟨rfl, rfl, eligible_fn_contributes_mutants.2.1 fs_none sample_visitor
      [] "foo" ReturnType.default (Block.mk [Stmt.otherStmt]) 0 rfl rfl⟩,
    ⟨by decide, eligible_fn_contributes_mutants.2.2 fs_none sample_visitor
      [] "get" ReturnType.default (Block.mk [Stmt.otherStmt]) 0 (by decide)⟩⟩

/-! ## Tree walker (src/visit.rs lines 44-91) -/

/-- Modelled from the spec: `SourceFile::new` (source.rs) records the
tree-relative path, the owning package name, and the text read from
`root.join(path)`; the filesystem read is the oracle `read`. -/
def SourceFile.new (read : TreeRelativePath → String) (root : TreeRelativePath)
    (path : TreeRelativePath) (package_name : String) : SourceFile :=
  ⟨path, package_name, read (root ++ path)⟩

/-- The loop state of `walk_tree`: the file queue and the two accumulators. -/
structure WalkState where
  file_queue : List SourceFile
  mutants : List Mutant
  seen_files : List SourceFile
deriving DecidableEq, Repr

section Walker

variable (walk_file_fn : SourceFile → List Mutant × List TreeRelativePath)
variable (mutant_display : Mutant → String)
variable (read : TreeRelativePath → String)
variable (root : TreeRelativePath)
variable (options : Options)

/-- One iteration of the `walk_tree` loop body (src/visit.rs lines 53-88)
for the dequeued `source_file`, with `rest` the rest of the queue.  The
parse-and-visit `walk_file` is the oracle `walk_file_fn`, and a mutant's
`Display` text (mutate.rs, used by the name filters) is the oracle
`mutant_display`.  Discovered files are enqueued before the glob checks, so
a file that fails them still contributes its submodules; `continue` is
modelled by returning the state with `mutants` and `seen_files` unchanged. -/
def walk_tree_step (st : WalkState) (source_file : SourceFile)
    (rest : List SourceFile) : WalkState :=
  let package_name := source_file.package_name
  let file_mutants := (walk_file_fn source_file).1
  let more_files := (walk_file_fn source_file).2
  let file_queue := rest ++ more_files.map
    (fun path => SourceFile.new read root path package_name)
  let path := source_file.tree_relative_path
  if (match options.examine_globset with
      | some globset => !globset.is_match path
      | none => false) then
    { file_queue := file_queue, mutants := st.mutants,
      seen_files := st.seen_files }
  else if (match options.exclude_globset with
      | some globset => globset.is_match path
      | none => false) then
    { file_queue := file_queue, mutants := st.mutants,
      seen_files := st.seen_files }
  else
    let file_mutants := match options.examine_names with
      | some examine_names =>
        if !examine_names.is_empty then
          file_mutants.filter (fun m => examine_names.is_match (mutant_display m))
        else file_mutants
      | none => file_mutants
    let file_mutants := match options.exclude_names with
      | some exclude_names =>
        if !exclude_names.is_empty then
          file_mutants.filter (fun m => !exclude_names.is_match (mutant_display m))
        else file_mutants
      | none => file_mutants
    { file_queue := file_queue, mutants := st.mutants ++ file_mutants,
      seen_files := st.seen_files ++ [source_file] }

/-- The `walk_tree` queue loop.  The Rust loop is unbounded; `fuel` makes
divergence observable: `none` means the loop did not finish within `fuel`
iterations. -/
def walk_loop : Nat → WalkState → Option (List Mutant × List SourceFile)
  | 0, _ => none
  | fuel + 1, st =>
    match st.file_queue with
    | [] => some (st.mutants, st.seen_files)
    | source_file :: rest =>
      walk_loop fuel (walk_tree_step walk_file_fn mutant_display read root
        options st source_file rest)

/-- The files dequeued (and hence walked) by `walk_loop`, in order. -/
def walk_dequeued : Nat → WalkState → List SourceFile
  | 0, _ => []
  | fuel + 1, st =>
    match st.file_queue with
    | [] => []
    | source_file :: rest =>
      source_file :: walk_dequeued fuel (walk_tree_step walk_file_fn
        mutant_display read root options st source_file rest)

/-- The `walk_tree` from src/visit.rs: run the loop from the build tool's root
files with empty accumulators. -/
def walk_tree (fuel : Nat) (root_files : List SourceFile) :
    Option (List Mutant × List SourceFile) :=
  walk_loop walk_file_fn mutant_display read root options fuel
    ⟨root_files, [], []⟩

/-- A path fails the examine globset or matches the exclude globset. -/
def fails_globs (p : TreeRelativePath) : Bool :=
  (match options.examine_globset with
    | some globset => !globset.is_match p
    | none => false)
  || (match options.exclude_globset with
    | some globset => globset.is_match p
    | none => false)

end Walker

theorem walk_tree_step_queue (walk_file_fn) (mutant_display) (read)
    (root : TreeRelativePath) (options : Options) (st : WalkState)
    (f : SourceFile) (rest : List SourceFile) :
    (walk_tree_step walk_file_fn mutant_display read root options
        st f rest).file_queue =
      rest ++ (walk_file_fn f).2.map
        (fun path => SourceFile.new read root path f.package_name) := by
  simp only [walk_tree_step]
  split_ifs <;> rfl

theorem walk_tree_step_filtered (walk_file_fn) (mutant_display) (read)
    (root : TreeRelativePath) (options : Options) (st : WalkState)
    (f : SourceFile) (rest : List SourceFile)
    (hf : fails_globs options f.tree_relative_path = true) :
    walk_tree_step walk_file_fn mutant_display read root options st f rest =
      { file_queue := rest ++ (walk_file_fn f).2.map
          (fun path => SourceFile.new read root path f.package_name),
        mutants := st.mutants, seen_files := st.seen_files } := by
  simp only [fails_globs, Bool.or_eq_true] at hf
  simp only [walk_tree_step]
  by_cases g1 : (match options.examine_globset with
      | some globset => !globset.is_match f.tree_relative_path
      | none => false) = true
  · simp [g1]
  · have g2 : (match options.exclude_globset with
        | some globset => globset.is_match f.tree_relative_path
        | none => false) = true := by
      rcases hf with h | h
      · exact absurd h g1
      · exact h
    simp [bool_eq_false g1, g2]

theorem walk_dequeued_complete (walk_file_fn) (mutant_display) (read)
    (root : TreeRelativePath) (options : Options) :
    ∀ fuel (st : WalkState),
      walk_loop walk_file_fn mutant_display read root options fuel st ≠ none →
      ∀ g ∈ st.file_queue,
        g ∈ walk_dequeued walk_file_fn mutant_display read root options fuel st := by
  intro fuel
  induction fuel with
  | zero => intro st h; exact absurd rfl h
  | succ fuel ih =>
    intro st h g hg
    cases hq : st.file_queue with
    | nil => rw [hq] at hg; exact absurd hg (List.not_mem_nil g)
    | cons f rest =>
      rw [hq] at hg
      have hloop : walk_loop walk_file_fn mutant_display read root options
          (fuel + 1) st = walk_loop walk_file_fn mutant_display read root
          options fuel (walk_tree_step walk_file_fn mutant_display read root
            options st f rest) := by
        simp only [walk_loop, hq]
      have hdeq : walk_dequeued walk_file_fn mutant_display read root options
          (fuel + 1) st = f :: walk_dequeued walk_file_fn mutant_display read
          root options fuel (walk_tree_step walk_file_fn mutant_display read
            root options st f rest) := by
        simp only [walk_dequeued, hq]
      rw [hdeq]
      rcases List.mem_cons.mp hg with h1 | h1
      · exact h1 ▸ List.mem_cons_self f _
      · refine List.mem_cons_of_mem f (ih _ ?_ g ?_)
        · rw [hloop] at h
          exact h
        · rw [walk_tree_step_queue]
          exact List.mem_append.mpr (Or.inl h1)

/-- C4: a dequeued file whose path fails the examine globset or matches the
exclude globset contributes zero of its mutants and is not added to the
seen-files list — the loop continues with both accumulators unchanged — yet
every external `mod` file it discovered is still enqueued and, whenever the
walk completes, subsequently dequeued and walked. -/
theorem glob_filtered_file_still_walked :
    ∀ (walk_file_fn : SourceFile → List Mutant × List TreeRelativePath)
      (mutant_display : Mutant → String) (read : TreeRelativePath → String)
      (root : TreeRelativePath) (options : Options)
      (st : WalkState) (f : SourceFile) (rest : List SourceFile) (fuel : Nat),
      st.file_queue = f :: rest →
      fails_globs options f.tree_relative_path = true →
      (walk_loop walk_file_fn mutant_display read root options (fuel + 1) st =
        walk_loop walk_file_fn mutant_display read root options fuel
          { file_queue := rest ++ (walk_file_fn f).2.map
              (fun path => SourceFile.new read root path f.package_name),
            mutants := st.mutants, seen_files := st.seen_files })
      ∧ (walk_loop walk_file_fn mutant_display read root options (fuel + 1) st
            ≠ none →
          ∀ p ∈ (walk_file_fn f).2,
            SourceFile.new read root p f.package_name ∈
              walk_dequeued walk_file_fn mutant_display read root options
                (fuel + 1) st) := by
  intro walk_file_fn mutant_display read root options st f rest fuel hq hf
  have hloop : walk_loop walk_file_fn mutant_display read root options
      (fuel + 1) st = walk_loop walk_file_fn mutant_display read root options
      fuel (walk_tree_step walk_file_fn mutant_display read root options
        st f rest) := by
    simp only [walk_loop, hq]
  constructor
  · rw [hloop,
      walk_tree_step_filtered walk_file_fn mutant_display read root options
        st f rest hf]
  · intro hsome p hp
    have hdeq : walk_dequeued walk_file_fn mutant_display read root options
        (fuel + 1) st = f :: walk_dequeued walk_file_fn mutant_display read
        root options fuel (walk_tree_step walk_file_fn mutant_display read
          root options st f rest) := by
      simp only [walk_dequeued, hq]
    rw [hdeq]
    refine List.mem_cons_of_mem f ?_
    refine walk_dequeued_complete walk_file_fn mutant_display read root
      options fuel
      (walk_tree_step walk_file_fn mutant_display read root options st f rest)
      ?_ _ ?_
    · rw [hloop] at hsome
      exact hsome
    · rw [walk_tree_step_queue]
      exact List.mem_append.mpr (Or.inr (List.mem_map.mpr ⟨p, hp, rfl⟩))

/-- Concrete options for the C4 witness: examine only `src/lib.rs`. -/
def c4_options : Options :=
  ⟨some ⟨fun p => p == ["src", "lib.rs"]⟩, none, none, none, [], []⟩

/-- A `walk_file` oracle standing for a file whose only item is an external
`mod sub;`: no mutants, one discovered module file. -/
def c4_walk_file : SourceFile → List Mutant × List TreeRelativePath :=
  fun _ => ([], [["src", "sub.rs"]])

/-- A mutant display oracle (mutate.rs `Display` is external). -/
def display_empty : Mutant → String := fun _ => ""

/-- A filesystem read oracle for the walker witnesses. -/
def c4_read : TreeRelativePath → String := fun _ => "mod sub;"

/-- A file that fails the examine globset of `c4_options`. -/
def c4_file : SourceFile := ⟨["src", "other.rs"], "demo", "mod sub;"⟩

/-- Witness for C4 at a concrete filtered file. -/
theorem glob_filtered_file_still_walked_witness :
    (WalkState.mk [c4_file] [] []).file_queue = c4_file :: []
    ∧ fails_globs c4_options c4_file.tree_relative_path = true
    ∧ (walk_loop c4_walk_file display_empty c4_read [] c4_options 2
          (WalkState.mk [c4_file] [] []) =
        walk_loop c4_walk_file display_empty c4_read [] c4_options 1
          { file_queue := [] ++ (c4_walk_file c4_file).2.map
              (fun path => SourceFile.new c4_read [] path c4_file.package_name),
            mutants := [], seen_files := [] })
    ∧ (walk_loop c4_walk_file display_empty c4_read [] c4_options 2
          (WalkState.mk [c4_file] [] []) ≠ none →
        ∀ p ∈ (c4_walk_file c4_file).2,
          SourceFile.new c4_read [] p c4_file.package_name ∈
            walk_dequeued c4_walk_file display_empty c4_read [] c4_options 2
              (WalkState.mk [c4_file] [] [])) := by
  have h := glob_filtered_file_still_walked c4_walk_file display_empty c4_read
    [] c4_options (WalkState.mk [c4_file] [] []) c4_file [] 1 rfl (by decide)
  exact ⟨rfl, by decide, h.1, h.2⟩

/-- The self-referential module file `src/mod.rs` whose text is
`mod r#mod;`: the mod-resolution rule for a file named `mod.rs` looks in
`src/`, so the declared module resolves to `src/mod.rs` itself. -/
def self_mod_file : SourceFile := ⟨["src", "mod.rs"], "demo", "mod r#mod;"⟩

/-- The parsed items of `self_mod_file`: one external `mod` named `mod`
(after `unraw`). -/
def self_mod_items : List Item := [Item.itemMod [] "mod" none]

/-- The filesystem of that tree: only `src/mod.rs` exists. -/
def self_mod_fs : TreeRelativePath → Bool := fun p => p == ["src", "mod.rs"]

/-- The `walk_file` oracle realised by the visitor itself on the parsed
items of `self_mod_file`. -/
def self_mod_walk_file : SourceFile → List Mutant × List TreeRelativePath :=
  fun sf =>
    ((visit_file self_mod_fs [] sf self_mod_items).mutants,
      (visit_file self_mod_fs [] sf self_mod_items).more_files)

/-- The filesystem read oracle of that tree. -/
def read_self_mod : TreeRelativePath → String := fun _ => "mod r#mod;"

/-- Options with no filters at all. -/
def no_filter_options : Options := ⟨none, none, none, none, [], []⟩

/-- C6 (refuting the claimed invariant): `walk_tree` keeps no record of
visited tree-relative paths.  On the tree whose `src/mod.rs` declares
`mod r#mod;` — a declaration that resolves to `src/mod.rs` itself — the
walker re-enqueues the very path it just dequeued on every iteration: the
first three dequeued files are all `src/mod.rs`, and the walk never
terminates however much fuel it is given. -/
theorem walk_tree_self_mod_diverges :
    (self_mod_walk_file self_mod_file).2 = [["src", "mod.rs"]]
    ∧ SourceFile.new read_self_mod [] ["src", "mod.rs"]
        self_mod_file.package_name = self_mod_file
    ∧ walk_dequeued self_mod_walk_file display_empty read_self_mod []
        no_filter_options 3 (WalkState.mk [self_mod_file] [] [])
        = [self_mod_file, self_mod_file, self_mod_file]
    ∧ ∀ fuel mutants seen,
        walk_loop self_mod_walk_file display_empty read_self_mod []
          no_filter_options fuel (WalkState.mk [self_mod_file] mutants seen)
          = none := by
  refine ⟨by decide, by decide, by decide, ?_⟩
  intro fuel
  induction fuel with
  | zero =>
    intro mutants seen
    rfl
  | succ fuel ih =>
    intro mutants seen
    have hstep : walk_tree_step self_mod_walk_file display_empty read_self_mod
        [] no_filter_options (WalkState.mk [self_mod_file] mutants seen)
        self_mod_file []
        = WalkState.mk [self_mod_file] mutants (seen ++ [self_mod_file]) := by
      have h1 : (self_mod_walk_file self_mod_file).1 = [] := by decide
      have h2 : (self_mod_walk_file self_mod_file).2.map
          (fun path => SourceFile.new read_self_mod [] path
            self_mod_file.package_name) = [self_mod_file] := by decide
      simp [walk_tree_step, no_filter_options, h1, h2]
    show walk_loop self_mod_walk_file display_empty read_self_mod []
        no_filter_options fuel _ = none
    rw [hstep]
    exact ih mutants (seen ++ [self_mod_file])

end CargoMutants
